import Mathlib

/-!
Verification development for the rx-mysql query-templating and execution
layer.  Definitions are shallow embeddings of the JavaScript sources
(`src/helpers.js`, `src/db.js`); external collaborators (the mysql2 driver's
`escape`/`escapeId`, the change-case library's `camelCase`/`snakeCase`) are
modelled concretely from their published behaviour, and the Handlebars
template engine and the endent re-indenter are taken as function parameters
since no claim depends on their internals.
-/

/-- JavaScript values that can appear in a parameter set (`values`). -/
inductive JSVal where
  | vNull
  | vStr (s : String)
  | vNum (n : Int)
  | vBool (b : Bool)
deriving DecidableEq, Repr

/-- Association-list lookup; models `values.hasOwnProperty(key)` followed by
`values[key]` on a plain JS object (keys are unique, first binding wins). -/
def lookupA (values : List (String × JSVal)) (key : String) : Option JSVal :=
  match values with
  | [] => none
  | (k, v) :: rest => if k = key then some v else lookupA rest key

/-- JS regex `\w` character class: ASCII letters, digits and underscore. -/
def isWordChar (c : Char) : Bool :=
  c.isAlpha || c.isDigit || c = '_'

/-- ASCII alphanumeric, the characters kept by change-case's strip step
(`/[^A-Z0-9]/gi`); everything else is a word delimiter. -/
def isAlnumA (c : Char) : Bool :=
  c.isAlpha || c.isDigit

/-- ASCII lower-casing, as performed by JS `String.prototype.toLowerCase`
on the ASCII alphanumeric characters change-case keeps. -/
def lowerA (c : Char) : Char :=
  if 65 ≤ c.toNat ∧ c.toNat ≤ 90 then Char.ofNat (c.toNat + 32) else c

/-- ASCII upper-casing of a single character (JS `toUpperCase`). -/
def upperA (c : Char) : Char :=
  if 97 ≤ c.toNat ∧ c.toNat ≤ 122 then Char.ofNat (c.toNat - 32) else c

/-- Case boundary of change-case v4 `noCase` between a previous character
`p` and the current character `c` (with `rest` following `c`): splits
`/([a-z0-9])([A-Z])/` and `/([A-Z])([A-Z][a-z])/`. -/
def camelBoundary (p c : Char) (rest : List Char) : Bool :=
  ((p.isLower || p.isDigit) && c.isUpper)
    || (p.isUpper && c.isUpper &&
        (match rest with | n :: _ => n.isLower | [] => false))

/-- Word splitter of change-case v4 `noCase`: words are maximal runs of
ASCII alphanumerics, additionally split at `camelBoundary` positions.
`cur` is the current word accumulated in reverse. -/
def wordsAux : List Char → List Char → List (List Char)
  | [], [] => []
  | p :: ptail, [] => (p :: ptail).reverse :: []
  | [], c :: rest =>
    if isAlnumA c then wordsAux [c] rest else wordsAux [] rest
  | p :: ptail, c :: rest =>
    if isAlnumA c then
      if camelBoundary p c rest then
        (p :: ptail).reverse :: wordsAux [c] rest
      else
        wordsAux (c :: p :: ptail) rest
    else
      (p :: ptail).reverse :: wordsAux [] rest

/-- change-case word split of a string. -/
def caseWords (s : String) : List (List Char) :=
  wordsAux [] s.data

/-- Join a list of char-list words with a separator char. -/
def joinSep (sep : Char) : List (List Char) → List Char
  | [] => []
  | [w] => w
  | w :: ws => w ++ sep :: joinSep sep ws

/-- Model of change-case `snakeCase` (the spec's `toWireCasing`): split
into words, lower-case each word, join with underscores. -/
def snakeCase (s : String) : String :=
  String.mk (joinSep '_' ((caseWords s).map (fun w => w.map lowerA)))

/-- change-case v4 `camelCaseTransform`: the first word is lower-cased;
subsequent words are capitalised (first char upper, rest lower), except
that a word starting with a digit is prefixed with an underscore. -/
def camelWord (i : Nat) (w : List Char) : List Char :=
  if i = 0 then w.map lowerA
  else
    match w with
    | [] => []
    | c :: cs =>
      if c.isDigit then '_' :: c :: cs.map lowerA
      else upperA c :: cs.map lowerA

/-- Model of change-case `camelCase` (the spec's application-casing
transform used by the Casing Converter). -/
def camelCase (s : String) : String :=
  String.mk (((caseWords s).enum.map (fun p => camelWord p.1 p.2)).flatten)

/-- sqlstring's per-character escape map used by mysql2's `escape` for
string literals. -/
def escapeStringChar (c : Char) : List Char :=
  if c = Char.ofNat 0 then ['\\', '0']
  else if c = Char.ofNat 8 then ['\\', 'b']
  else if c = Char.ofNat 9 then ['\\', 't']
  else if c = Char.ofNat 26 then ['\\', 'Z']
  else if c = '\n' then ['\\', 'n']
  else if c = '\r' then ['\\', 'r']
  else if c = '\"' then ['\\', '\"']
  else if c = '\'' then ['\\', '\'']
  else if c = '\\' then ['\\', '\\']
  else [c]

/-- Model of the mysql2 driver's value-escaping primitive `escape`
(sqlstring `SqlString.escape`) on the scalar values of our model. -/
def mysqlEscape : JSVal → String
  | .vNull => "NULL"
  | .vBool b => if b then "true" else "false"
  | .vNum n => toString n
  | .vStr s => String.mk ('\'' :: s.data.flatMap escapeStringChar ++ ['\''])

/-- Model of the mysql2 driver's identifier-escaping primitive `escapeId`
(sqlstring `SqlString.escapeId`, qualified identifiers allowed): back-tick
quote, doubling interior back-ticks and splitting on dots. -/
def mysqlEscapeId (s : String) : String :=
  String.mk ('`' :: s.data.flatMap
    (fun c =>
      if c = '`' then ['`', '`']
      else if c = '.' then ['`', '.', '`']
      else [c]) ++ ['`'])

/-- JS `String.prototype.split('.')` on a char list. -/
def splitOnDot : List Char → List (List Char)
  | [] => [[]]
  | c :: rest =>
    if c = '.' then [] :: splitOnDot rest
    else
      match splitOnDot rest with
      | w :: ws => (c :: w) :: ws
      | [] => [[c]]

/-- The substitution text for an identifier marker whose key is present
(`helpers.js` line 20): `values[key]?.split('.')?.map(part =>
escapeId(snakeCase(part)))?.join('.')`.  A `null` value short-circuits the
optional chain to `undefined`, which `String.replace` stringifies; a
non-string non-null value has no `.split` method and throws a `TypeError`
(modelled as `none`). -/
def idSubstImage (escapeId : String → String) : JSVal → Option String
  | .vStr s =>
    some (String.mk (joinSep '.'
      ((splitOnDot s.data).map (fun seg => (escapeId (snakeCase (String.mk seg))).data))))
  | .vNull => some "undefined"
  | .vNum _ => none
  | .vBool _ => none

/-- The identifier pass of `bindQueryParams` (`helpers.js` lines 17-23):
`sql.replace(/\B::(\w+)/g, ...)`.  `prevW` records whether the character
before the current scan position is a word character (string start counts
as non-word), which decides the `\B` assertion before a colon.  On a match
the whole `::key` token is consumed; for a present key the substitution
image is emitted, otherwise the token is kept verbatim.  `fuel` bounds the
recursion (callers pass more fuel than characters). -/
def iScan (escapeId : String → String) (values : List (String × JSVal)) :
    Nat → Bool → List Char → Option (List Char)
  | 0, _, cs => some cs
  | _ + 1, _, [] => some []
  | fuel + 1, prevW, c :: rest =>
    if c = ':' ∧ rest.head? = some ':' then
      if prevW then
        (iScan escapeId values fuel false rest).map (fun t => ':' :: t)
      else
        let rest2 := rest.tail
        let key := rest2.takeWhile isWordChar
        if key.isEmpty then
          (iScan escapeId values fuel false rest).map (fun t => ':' :: t)
        else
          let rest' := rest2.dropWhile isWordChar
          match lookupA values (String.mk key) with
          | some v =>
            match idSubstImage escapeId v with
            | none => none
            | some img =>
              (iScan escapeId values fuel true rest').map (fun t => img.data ++ t)
          | none =>
            (iScan escapeId values fuel true rest').map
              (fun t => ':' :: ':' :: (key ++ t))
    else
      (iScan escapeId values fuel (isWordChar c) rest).map (fun t => c :: t)

/-- The value pass of `bindQueryParams` (`helpers.js` lines 25-31):
`.replace(/\B:(\w+)/g, ...)`.  Same scanning discipline as `iScan`; a
present key's value is escaped and inserted (the insertion is not
re-scanned, matching JS `replace`), an absent key's marker is kept. -/
def vScan (escape : JSVal → String) (values : List (String × JSVal)) :
    Nat → Bool → List Char → List Char
  | 0, _, cs => cs
  | _ + 1, _, [] => []
  | fuel + 1, prevW, c :: rest =>
    if c = ':' ∧ prevW = false then
      let key := rest.takeWhile isWordChar
      if key.isEmpty then
        c :: vScan escape values fuel false rest
      else
        let rest' := rest.dropWhile isWordChar
        match lookupA values (String.mk key) with
        | some v => (escape v).data ++ vScan escape values fuel true rest'
        | none => c :: (key ++ vScan escape values fuel true rest')
    else
      c :: vScan escape values fuel (isWordChar c) rest

/-- `bindQueryParams` (`helpers.js` lines 14-32): the identifier pass
followed by the value pass, which re-scans the identifier pass's output.
Returns `none` when the identifier substitution throws (non-string,
non-null value under `.split`). -/
def bindQueryParams (escape : JSVal → String) (escapeId : String → String)
    (sql : String) (values : List (String × JSVal)) : Option String :=
  (iScan escapeId values (sql.data.length + 1) false sql.data).map
    (fun mid => String.mk (vScan escape values (mid.length + 1) false mid))

/-- The `sqlEscape` Handlebars helper (`helpers.js` lines 44-46):
`bindQueryParams(':value', { value })`.  Its result is spliced into the
compiled skeleton, which the outer `bindQueryParams` then re-scans. -/
def sqlEscapeHelper (escape : JSVal → String) (escapeId : String → String)
    (v : JSVal) : Option String :=
  bindQueryParams escape escapeId ":value" [("value", v)]

/-- The `sqlEscapeId` Handlebars helper (`helpers.js` lines 40-42):
`bindQueryParams('::id', { id })`. -/
def sqlEscapeIdHelper (escape : JSVal → String) (escapeId : String → String)
    (v : JSVal) : Option String :=
  bindQueryParams escape escapeId "::id" [("id", v)]

/-- The `values` argument of `queryFormat` as JS sees it: absent/null
(falsy), an array (which has a numeric `length`), or a plain object
(whose `length` is just an ordinary property, usually absent). -/
inductive BindValues where
  | absent
  | arr (l : List JSVal)
  | obj (m : List (String × JSVal))

/-- The parameter object an array argument presents to `hasOwnProperty`:
its elements keyed by their decimal indices. -/
def paramsOfArr (l : List JSVal) : List (String × JSVal) :=
  (l.enum.map (fun p => (toString p.1, p.2)))

/-- The guard of `queryFormat` (`helpers.js` line 8):
`!values || (values?.length === 0)`.  `!values` holds for absent/null;
`values?.length === 0` holds for an empty array, and for a plain object
exactly when its `length` property is the number `0`. -/
def queryFormatGuard : BindValues → Bool
  | .absent => true
  | .arr l => l.isEmpty
  | .obj m => lookupA m "length" = some (.vNum 0)

/-- Re-indentation stage of `queryFormat` (`helpers.js` line 57):
`.split(';').map(v => endent(v)).join(';\n\n')`, with the external
`endent` re-indenter passed in as `endentF`. -/
def endentJoin (endentF : String → String) (s : String) : String :=
  String.intercalate ";\n\n" ((s.splitOn ";").map endentF)

/-- `queryFormat` (`helpers.js` lines 7-61).  `hb` is the Handlebars
template expansion collaborator (`Handlebars.compile(query, ...)(values)`,
with the `sql`/`sqlEscape`/`sqlEscapeId` helpers in scope), `endentF` the
endent collaborator; both are external libraries.  When the guard holds
the input string is returned untouched; otherwise the template is
expanded, bound and re-indented. -/
def queryFormat (hb : String → List (String × JSVal) → String)
    (endentF : String → String)
    (escape : JSVal → String) (escapeId : String → String)
    (query : String) (values : BindValues) : Option String :=
  if queryFormatGuard values then some query
  else
    match values with
    | .absent => some query
    | .arr l =>
      (bindQueryParams escape escapeId (hb query (paramsOfArr l)) (paramsOfArr l)).map
        (endentJoin endentF)
    | .obj m =>
      (bindQueryParams escape escapeId (hb query m) m).map (endentJoin endentF)

/-- Result rows as returned by the driver: an array of rows, where a row
is a plain object, a nested array (multi-statement results), or the
`ResultSetHeader` sentinel produced by DDL/DML statements. -/
inductive Rows where
  | arr (elems : List Rows)
  | obj (fields : List (String × JSVal))
  | header
deriving Repr

/-- JS `delete result[key]`. -/
def eraseKey (m : List (String × JSVal)) (k : String) : List (String × JSVal) :=
  match m with
  | [] => []
  | (k', v) :: rest => if k' = k then eraseKey rest k else (k', v) :: eraseKey rest k

/-- JS `result[k] = v`: update in place when the key exists, append
otherwise (insertion order of plain objects). -/
def setKey (m : List (String × JSVal)) (k : String) (v : JSVal) :
    List (String × JSVal) :=
  match m with
  | [] => [(k, v)]
  | (k', v') :: rest =>
    if k' = k then (k', v) :: rest else (k', v') :: setKey rest k v

/-- One `for (const key in result)` sweep of `convertColumnNameCasing`
(`helpers.js` lines 71-76), iterating over the snapshot `ks` of the
object's keys (V8 does not visit keys added during the loop): when
`key !== camelCase(key)`, assign `result[camelCase(key)] = result[key]`
and `delete result[key]`.  The `none` lookup branch cannot arise for a
plain object (keys are unique and only the visited key is ever deleted). -/
def convRowGo (ks : List String) (st : List (String × JSVal)) :
    List (String × JSVal) :=
  match ks with
  | [] => st
  | k :: rest =>
    if k = camelCase k then convRowGo rest st
    else
      match lookupA st k with
      | none => convRowGo rest st
      | some v => convRowGo rest (eraseKey (setKey st (camelCase k) v) k)

/-- Key-casing conversion of a single row object. -/
def convRow (m : List (String × JSVal)) : List (String × JSVal) :=
  convRowGo (m.map Prod.fst) m

mutual

/-- One element of the results array (`helpers.js` lines 67-78): nested
arrays are converted recursively, a `ResultSetHeader` is left untouched,
every other object has its keys camel-cased. -/
def convertElem : Rows → Rows
  | .arr l => .arr (convertList l)
  | .obj m => .obj (convRow m)
  | .header => .header

/-- Pointwise conversion of a list of results. -/
def convertList : List Rows → List Rows
  | [] => []
  | r :: rs => convertElem r :: convertList rs

end

/-- `convertColumnNameCasing` (`helpers.js` lines 63-79), the spec's
`toApplicationCasing`: a non-array argument is returned unchanged (the
source simply returns), an array is converted elementwise. -/
def convertColumnNameCasing : Rows → Rows
  | .arr l => .arr (convertList l)
  | r => r

mutual

/-- All row-object keys appearing anywhere in a results value satisfy
`camelCase (camelCase k) = camelCase k` (true of typical snake_case or
camelCase column names; change-case violates it e.g. for `a_b_c`). -/
def keysIdem : Rows → Bool
  | .arr l => keysIdemList l
  | .obj m => m.all (fun p => camelCase (camelCase p.1) = camelCase p.1)
  | .header => true

/-- `keysIdem` over a list of results. -/
def keysIdemList : List Rows → Bool
  | [] => true
  | r :: rs => keysIdem r && keysIdemList rs

end

/-- Decomposition pieces of the value pass: verbatim input chunks and
marker substitutions. -/
inductive VPiece where
  | lit (cs : List Char)
  | sub (key : List Char) (v : JSVal)
deriving DecidableEq

/-- Output text a piece contributes: a literal chunk verbatim, a
substitution as exactly one application of the driver's `escape`. -/
def vrender (escape : JSVal → String) : VPiece → List Char
  | .lit cs => cs
  | .sub _ v => (escape v).data

/-- Input text a piece consumed: a literal chunk verbatim, a substitution
the `:key` marker it replaced. -/
def vsource : VPiece → List Char
  | .lit cs => cs
  | .sub k _ => ':' :: k

/-- Piece decomposition of the value pass; mirrors `vScan` step by step. -/
def vPieces (values : List (String × JSVal)) :
    Nat → Bool → List Char → List VPiece
  | 0, _, cs => [.lit cs]
  | _ + 1, _, [] => []
  | fuel + 1, prevW, c :: rest =>
    if c = ':' ∧ prevW = false then
      let key := rest.takeWhile isWordChar
      if key.isEmpty then
        .lit [c] :: vPieces values fuel false rest
      else
        let rest' := rest.dropWhile isWordChar
        match lookupA values (String.mk key) with
        | some v => .sub key v :: vPieces values fuel true rest'
        | none => .lit (c :: key) :: vPieces values fuel true rest'
    else
      .lit [c] :: vPieces values fuel (isWordChar c) rest

/-- In-memory state of the test double (`db.js` lines 28-32): the closure
variables `lastQuery`, `lastTransaction`, `transationStarted` (sic) and
`resultsByMatch` of `init` when `testMode` is on.  A matcher is a
predicate on the bound query string together with its canned result. -/
structure TestState where
  lastQuery : Option String := none
  lastTransaction : Option String := none
  transationStarted : Bool := false
  resultsByMatch : Option (List ((String → Bool) × List Rows)) := none

/-- JS string coercion of a possibly-null accumulator, as happens in
`lastTransaction += ...` (`null` stringifies to "null"; unreachable in
practice because every path that sets `transationStarted` also seeds
`lastTransaction`). -/
def jsStr : Option String → String
  | some s => s
  | none => "null"

/-- `query` of the test pool proxy (`db.js` lines 310-324): bind the
query, record it as last query, append it to the open transaction buffer
if any, and answer with the first matching canned result (or `[]`).
Returns `none` when `queryFormat` throws. -/
def testPoolQuery (hb : String → List (String × JSVal) → String)
    (endentF : String → String)
    (escape : JSVal → String) (escapeId : String → String)
    (st : TestState) (sql : String) (values : BindValues) :
    Option (List Rows × TestState) :=
  match queryFormat hb endentF escape escapeId sql values with
  | none => none
  | some q =>
    let st1 : TestState := { st with lastQuery := some q }
    let st2 : TestState :=
      if st1.transationStarted then
        { st1 with lastTransaction := some (jsStr st1.lastTransaction ++ "\n" ++ q ++ ";") }
      else st1
    let res : List Rows :=
      match st2.resultsByMatch with
      | some matchers =>
        match matchers.find? (fun p => p.1 q) with
        | some p => p.2
        | none => []
      | none => []
    some (res, st2)

/-- `beginTransaction` of the test pool proxy (`db.js` lines 329-334):
opens the accumulation buffer seeded with the transaction-start marker. -/
def testPoolBeginTransaction (st : TestState) : TestState :=
  { st with transationStarted := true, lastTransaction := some "START TRANSACTION;" }

/-- `commit` of the test pool proxy (`db.js` line 336): appends the
terminal statement and closes the buffer. -/
def testPoolCommit (st : TestState) : TestState :=
  { st with transationStarted := false,
            lastTransaction := some (jsStr st.lastTransaction ++ "\nCOMMIT;") }

/-- `rollback` of the test pool proxy (`db.js` line 338). -/
def testPoolRollback (st : TestState) : TestState :=
  { st with transationStarted := false,
            lastTransaction := some (jsStr st.lastTransaction ++ "\nROLLBACK;") }

/-- `getLastTransaction` accessor (`db.js` line 377). -/
def getLastTransaction (st : TestState) : Option String :=
  st.lastTransaction

/-- A JS error object as manipulated by `executeQuery`: its `message`
and the `rawMessage` diagnostic field added in production mode. -/
structure JsError where
  message : String
  rawMessage : Option String := none
deriving DecidableEq, Repr

/-- Per-call behaviour flags (`QueryConfig`); a field is `none` when the
property is absent. -/
structure QueryConfig where
  nativeQuery : Option Bool := none
  keepOriginalCasing : Option Bool := none

/-- `{...queryProvider.queryConfig, ...queryConfig}` (`db.js` lines
202-205): call-level properties override provider-level ones. -/
def mergeConfig (base call : QueryConfig) : QueryConfig where
  nativeQuery := call.nativeQuery.orElse (fun _ => base.nativeQuery)
  keepOriginalCasing := call.keepOriginalCasing.orElse (fun _ => base.keepOriginalCasing)

/-- What `executeQuery` hands back on success: the raw driver tuple when
`nativeQuery` is set, otherwise just the rows. -/
inductive ExecResult (μ : Type) where
  | native (results : Rows) (meta : μ)
  | rows (results : Rows)

/-- `executeQuery` (`db.js` lines 196-233).  `connectOutcome` is the
result of the initial `await connect()`; `provider` models the underlying
pool/connection's `query` (the raw driver call, resolving to a
rows/fields tuple or rejecting).  On failure the source runs
`await queryProvider.query('ROLLBACK;')` with no catch, so a rejected
rollback propagates; only when the rollback resolves is the original
error re-thrown, with its message obfuscated in production. -/
def executeQuery {μ : Type} (production : Bool)
    (connectOutcome : Except JsError Unit)
    (providerConfig callConfig : QueryConfig)
    (provider : String → Except JsError (Rows × μ))
    (sql : String) : Except JsError (ExecResult μ) :=
  match connectOutcome with
  | .error e => .error e
  | .ok _ =>
    let merged := mergeConfig providerConfig callConfig
    match provider sql with
    | .error e =>
      match provider "ROLLBACK;" with
      | .error e2 => .error e2
      | .ok _ =>
        if production then
          .error { message := "SQL error", rawMessage := some e.message }
        else
          .error e
    | .ok (results, meta) =>
      if merged.nativeQuery = some true then .ok (.native results meta)
      else if merged.keepOriginalCasing = some true then .ok (.rows results)
      else .ok (.rows (convertColumnNameCasing results))

instance : DecidableEq (Except JsError Nat) :=
  fun x y =>
    match x, y with
    | .error a, .error b =>
      if h : a = b then .isTrue (congrArg Except.error h)
      else .isFalse (fun hh => h (Except.error.inj hh))
    | .ok a, .ok b =>
      if h : a = b then .isTrue (congrArg Except.ok h)
      else .isFalse (fun hh => h (Except.ok.inj hh))
    | .error _, .ok _ => .isFalse (fun hh => Except.noConfusion hh)
    | .ok _, .error _ => .isFalse (fun hh => Except.noConfusion hh)

/-- Environment of a connection attempt: whether an SSH tunnel is
configured (`sshTunnelConfig.sshOptions?.host`), the outcome of
`establishTunnel()` (a tunnel server handle), and the outcome of the
readiness probe `corePool.query('SELECT 1;')`. -/
structure ConnectEnv where
  sshEnabled : Bool
  tunnel : Except JsError Nat
  probe : Except JsError Unit

/-- Connection-manager state (`db.js` lines 22-25): the memoised
`connectionPromise` (recorded here as its settled outcome), the wrapped
`pool`, the `tunnelServer`, plus bookkeeping: a fresh-pool counter and
the number of probe queries executed so far. -/
structure ConnState where
  connectionPromise : Option (Except JsError Nat) := none
  pool : Option Nat := none
  tunnelServer : Option Nat := none
  nextPoolId : Nat := 0
  probeCount : Nat := 0
deriving DecidableEq, Repr

/-- The body of the promise built by `connect` (`db.js` lines 94-142):
establish the tunnel when configured (a tunnel failure rejects before any
pool exists), create and wrap the pool, run the probe query, and resolve
with the pool or reject with the probe error. -/
def connectAttempt (env : ConnectEnv) (s : ConnState) :
    Except JsError Nat × ConnState :=
  match (if env.sshEnabled then env.tunnel.map some else .ok none) with
  | .error e => (.error e, s)
  | .ok srv =>
    let pid := s.nextPoolId
    let s1 : ConnState :=
      { s with tunnelServer := (srv.orElse (fun _ => s.tunnelServer)),
               pool := some pid, nextPoolId := pid + 1,
               probeCount := s.probeCount + 1 }
    match env.probe with
    | .error e => (.error e, s1)
    | .ok _ => (.ok pid, s1)

/-- `connect` (`db.js` lines 83-145), non-test mode: return the memoised
in-flight/settled promise when there is one, otherwise start one attempt
and memoise its outcome.  The settled outcome stays cached even when the
attempt failed (nothing clears `connectionPromise` except `disconnect`). -/
def connect (env : ConnectEnv) (s : ConnState) :
    Except JsError Nat × ConnState :=
  match s.connectionPromise with
  | some r => (r, s)
  | none =>
    let (r, s1) := connectAttempt env s
    (r, { s1 with connectionPromise := some r })

/-- `disconnect` (`db.js` lines 147-163): tear down the pool (errors
swallowed), clear `pool` and `connectionPromise`, then close the tunnel
server if any. -/
def disconnect (s : ConnState) : ConnState :=
  let s1 : ConnState :=
    if s.pool.isSome then { s with pool := none, connectionPromise := none } else s
  if s1.tunnelServer.isSome then { s1 with tunnelServer := none } else s1

/-- The first session statement issued on every new physical connection
(`db.js` lines 109-113): the template literal with the configured
timezone interpolated. -/
def timezoneStmt (tz : String) : String :=
  "\n              SET\n                time_zone='" ++ tz ++
    "',\n                group_concat_max_len = 16384;\n            "

/-- The second session statement (`db.js` lines 119-122), issued only
when `maxExecutionTime` is truthy. -/
def maxExecStmt (met : Nat) : String :=
  "\n                SET\n                  SESSION max_execution_time = " ++
    toString met ++ "\n              "

/-- The `pool.on('connection')` handler (`db.js` lines 107-124).  Both
statements are issued send-and-forget; the first statement's callback
re-throws its error, while the second's callback is `(error) => ({ error })`,
which wraps the error in an object and discards it.  Returns the list of
statements issued and the error surfaced by the handler's callbacks, if
any. -/
def runSessionSetup (conn : String → Option JsError) (tz : String)
    (met : Nat) : List String × Except JsError Unit :=
  let issued := [timezoneStmt tz] ++ (if met ≠ 0 then [maxExecStmt met] else [])
  let r1 := conn (timezoneStmt tz)
  let _discardedMaxExecError := if met ≠ 0 then conn (maxExecStmt met) else none
  (issued,
    match r1 with
    | some e => .error e
    | none => .ok ())

theorem takeWhile_eq_self_of_all {p : Char → Bool} {l : List Char}
    (h : l.all p) : l.takeWhile p = l := by
  induction l with
  | nil => rfl
  | cons c cs ih =>
    simp only [List.all_cons, Bool.and_eq_true] at h
    simp [List.takeWhile_cons, h.1, ih h.2]

theorem dropWhile_eq_nil_of_all {p : Char → Bool} {l : List Char}
    (h : l.all p) : l.dropWhile p = [] := by
  induction l with
  | nil => rfl
  | cons c cs ih =>
    simp only [List.all_cons, Bool.and_eq_true] at h
    simp [List.dropWhile_cons, h.1, ih h.2]

theorem vScan_no_colon (escape : JSVal → String)
    (values : List (String × JSVal)) :
    ∀ (cs : List Char), (∀ c ∈ cs, c ≠ ':') → ∀ fuel w,
      vScan escape values fuel w cs = cs := by
  intro cs
  induction cs with
  | nil => intro _ fuel w; cases fuel <;> rfl
  | cons c rest ih =>
    intro h fuel w
    cases fuel with
    | zero => rfl
    | succ n =>
      have hc : c ≠ ':' := h c (List.mem_cons_self c rest)
      simp only [vScan]
      rw [if_neg (by simp [hc])]
      rw [ih (fun x hx => h x (List.mem_cons_of_mem c hx)) n (isWordChar c)]

/-- Claim C10: when the `values` argument is absent/null or has length 0,
`queryFormat` returns the template unchanged — no directive expansion (the
result does not depend on the Handlebars collaborator `hb`), no marker
substitution, and no re-indentation (nor on `endentF`), whatever markers
or directives the template contains. -/
theorem C10_queryFormat_identity_without_values
    (hb : String → List (String × JSVal) → String) (endentF : String → String)
    (escape : JSVal → String) (escapeId : String → String) (q : String) :
    queryFormat hb endentF escape escapeId q .absent = some q ∧
    queryFormat hb endentF escape escapeId q (.arr []) = some q := by
  exact ⟨rfl, rfl⟩

/-- Claim C2 (counterexample): with parameter set `{k: "v"}`, the skeleton
`"a::k"` binds to `"a:'v'"` — the identifier pass skips `::k` because the
regex position before `::` is a word boundary after `a`, and the value
pass then substitutes `:k` at the second colon, yielding exactly the
"value marker `:k` with a stray leading colon" that the claim asserts can
never happen. -/
theorem C2_counterexample_stray_colon :
    bindQueryParams mysqlEscape mysqlEscapeId "a::k" [("k", .vStr "v")]
      = some "a:'v'" ∧
    ("a:'v'" : String) ≠ "a::k" := by
  exact ⟨by decide, by decide⟩

/-- Claim C3 (counterexample): for marker `::sortBy` with value
`"updatedAt.x"` the binder emits
`escapeId(snakeCase("updatedAt")) ++ "." ++ escapeId(snakeCase("x")) =
"`updated_at`.`x`"`, which differs from the claimed
`escapeId("updatedAt") ++ "." ++ escapeId("x") = "`updatedAt`.`x`"`:
each segment is wire-cased before identifier escaping. -/
theorem C3_counterexample_snake_cased_segment :
    bindQueryParams mysqlEscape mysqlEscapeId "::sortBy"
        [("sortBy", .vStr "updatedAt.x")]
      = some "`updated_at`.`x`" ∧
    mysqlEscapeId "updatedAt" ++ "." ++ mysqlEscapeId "x" = "`updatedAt`.`x`" ∧
    ("`updated_at`.`x`" : String) ≠ "`updatedAt`.`x`" := by
  exact ⟨by decide, by decide, by decide⟩

/-- Claim C1 (counterexample): the parameter value `":offset"` inserted by
the `sqlEscape` inline helper is escaped once to `"':offset'"`, but the
outer bind pass re-scans the helper's output inside the compiled skeleton
and substitutes `:offset` a second time, so the final BoundQuery is
`"'30' LIMIT 30"` instead of the once-escaped `"':offset' LIMIT 30"`:
the substituted value is re-substituted, violating escaped-exactly-once. -/
theorem C1_counterexample_helper_rescanned :
    sqlEscapeHelper mysqlEscape mysqlEscapeId (.vStr ":offset")
      = some "':offset'" ∧
    bindQueryParams mysqlEscape mysqlEscapeId ("':offset'" ++ " LIMIT :offset")
        [("offset", .vNum 30)]
      = some "'30' LIMIT 30" ∧
    ("'30' LIMIT 30" : String) ≠ "':offset'" ++ " LIMIT " ++ mysqlEscape (.vNum 30) := by
  exact ⟨by decide, by decide, by decide⟩

/-- Claim C8 (counterexample): on the row `{a_b_c: 1}` one application of
the Casing Converter yields key `aBC` (change-case camel-cases the three
words), but a second application rewrites it again to `aBc`, so
`toApplicationCasing` is not idempotent. -/
theorem C8_counterexample_not_idempotent :
    convertColumnNameCasing (.arr [.obj [("a_b_c", .vNum 1)]])
      = .arr [.obj [("aBC", .vNum 1)]] ∧
    convertColumnNameCasing (convertColumnNameCasing (.arr [.obj [("a_b_c", .vNum 1)]]))
      = .arr [.obj [("aBc", .vNum 1)]] ∧
    ("aBC" : String) ≠ "aBc" := by
  exact ⟨rfl, rfl, by decide⟩

/-- Claim C4 (counterexample): when both the query and the follow-up
`ROLLBACK;` fail, `executeQuery` surfaces the rollback's error (the
un-caught `await queryProvider.query('ROLLBACK;')` rejection), not the
original execution error: the rollback failure is not swallowed and it
replaces the original error. -/
theorem C4_counterexample_rollback_error_replaces :
    executeQuery (μ := Unit) false (.ok ()) {} {}
        (fun s => if s = "ROLLBACK;" then .error { message := "rollback failed" }
                  else .error { message := "original error" }) "SELECT 1"
      = .error { message := "rollback failed" } ∧
    ({ message := "rollback failed" } : JsError) ≠ { message := "original error" } := by
  exact ⟨rfl, by decide⟩

/-- Environment of a connection attempt whose readiness probe fails. -/
def envProbeFail : ConnectEnv :=
  { sshEnabled := false, tunnel := .ok 0, probe := .error { message := "probe failed" } }

/-- Claim C5 (counterexample): after a failed connect attempt the manager
keeps the settled rejection in `connectionPromise`; a second `connect()`
returns exactly the same failure with the state unchanged and the probe
count still 1 — it observes the previous failure again instead of
starting a fresh attempt. -/
theorem C5_counterexample_failure_is_cached :
    (connect envProbeFail {}).1 = .error { message := "probe failed" } ∧
    (connect envProbeFail {}).2.connectionPromise
      = some (.error { message := "probe failed" }) ∧
    connect envProbeFail (connect envProbeFail {}).2
      = (.error { message := "probe failed" }, (connect envProbeFail {}).2) ∧
    (connect envProbeFail (connect envProbeFail {}).2).2.probeCount = 1 := by
  exact ⟨rfl, rfl, rfl, rfl⟩

/-- Connection on which the `max_execution_time` session statement fails
while the timezone statement succeeds. -/
def connMaxExecFails : String → Option JsError :=
  fun s => if s = maxExecStmt 30000 then some { message := "SET failed" } else none

/-- Claim C7 (counterexample): with the default 30000 ms ceiling, the
connection handler issues both session statements, the
`max_execution_time` one fails, and the handler still completes without
raising — its callback `(error) => ({ error })` discards the failure, so
the failure is not treated as fatal. -/
theorem C7_counterexample_max_exec_failure_ignored :
    runSessionSetup connMaxExecFails "+00:00" 30000
      = ([timezoneStmt "+00:00", maxExecStmt 30000], .ok ()) ∧
    connMaxExecFails (maxExecStmt 30000) = some { message := "SET failed" } := by
  exact ⟨rfl, rfl⟩

/-- Claim C4 (amended): when query execution fails, `executeQuery` issues
`ROLLBACK;`; if the rollback resolves, the original error is re-raised
(message obfuscated in production with the original kept in `rawMessage`);
if the rollback itself rejects, its error propagates in place of the
original — the rollback failure is not swallowed. -/
theorem C4_amended_rollback_then_reraise {μ : Type} (production : Bool)
    (pc cc : QueryConfig) (provider : String → Except JsError (Rows × μ))
    (sql : String) (e : JsError) (hf : provider sql = .error e) :
    executeQuery production (.ok ()) pc cc provider sql
      = match provider "ROLLBACK;" with
        | .error e2 => .error e2
        | .ok _ =>
          .error (if production then
                    { message := "SQL error", rawMessage := some e.message }
                  else e) := by
  simp only [executeQuery, hf]
  cases provider "ROLLBACK;" with
  | error e2 => rfl
  | ok r => cases production <;> rfl

/-- Witness for C4 (amended) at a provider whose rollback succeeds. -/
theorem C4_amended_rollback_then_reraise_witness :
    executeQuery (μ := Unit) true (.ok ()) {} {}
        (fun s => if s = "ROLLBACK;" then .ok (.header, ())
                  else .error { message := "boom" }) "SELECT 1"
      = .error { message := "SQL error", rawMessage := some "boom" } := by
  have h := C4_amended_rollback_then_reraise (μ := Unit) true {} {}
    (fun s => if s = "ROLLBACK;" then .ok (.header, ())
              else .error { message := "boom" }) "SELECT 1"
    { message := "boom" } rfl
  exact h

/-- Claim C7 (amended): on every new physical connection the handler
issues the timezone statement and, when `maxExecutionTime` is truthy, the
`max_execution_time` statement, both send-and-forget; a failure of the
timezone statement is raised, while the outcome of the
`max_execution_time` statement never influences the handler's result —
its failure is discarded, not raised. -/
theorem C7_amended_second_setting_discarded
    (conn conn' : String → Option JsError) (tz : String) (met : Nat)
    (e : JsError) :
    ((runSessionSetup conn tz met).1
        = [timezoneStmt tz] ++ (if met ≠ 0 then [maxExecStmt met] else [])) ∧
    (conn (timezoneStmt tz) = some e → (runSessionSetup conn tz met).2 = .error e) ∧
    (conn (timezoneStmt tz) = none → (runSessionSetup conn tz met).2 = .ok ()) ∧
    (conn (timezoneStmt tz) = conn' (timezoneStmt tz) →
      (runSessionSetup conn tz met).2 = (runSessionSetup conn' tz met).2) := by
  refine ⟨rfl, ?_, ?_, ?_⟩
  · intro h; simp [runSessionSetup, h]
  · intro h; simp [runSessionSetup, h]
  · intro h; simp [runSessionSetup, h]

/-- Witness for C7 (amended): the timezone statement failing is raised
even though the `max_execution_time` statement succeeds. -/
theorem C7_amended_second_setting_discarded_witness :
    (runSessionSetup (fun _ => some { message := "tz failed" }) "+00:00" 30000).2
      = .error { message := "tz failed" } :=
  (C7_amended_second_setting_discarded
    (fun _ => some { message := "tz failed" })
    (fun _ => none) "+00:00" 30000 { message := "tz failed" }).2.1 rfl

/-- Claim C5 (amended): a failed connect attempt is surfaced to the
caller, but the manager caches the settled rejection: the state does not
return to a cleared (disconnected) state, and a subsequent `connect()`
observes the same failure again without starting a fresh attempt.  Only
`disconnect()` clears the cached promise (and only when a pool object was
created, i.e. the attempt got past tunnel establishment). -/
theorem C5_amended_failure_surfaced_but_cached
    (env : ConnectEnv) (s0 : ConnState) (e : JsError)
    (h0 : s0.connectionPromise = none)
    (hf : (connect env s0).1 = .error e) :
    (connect env s0).2.connectionPromise = some (.error e) ∧
    connect env (connect env s0).2 = (.error e, (connect env s0).2) ∧
    ((connect env s0).2.pool.isSome →
      (disconnect (connect env s0).2).connectionPromise = none) := by
  simp only [connect, h0] at hf ⊢
  refine ⟨?_, ?_, ?_⟩
  · simp [hf]
  · simp [hf]
  · intro hp
    simp only [disconnect]
    rw [if_pos hp]
    by_cases ht : ({ (connectAttempt env s0).2 with
        pool := none, connectionPromise := none } : ConnState).tunnelServer.isSome
    · rw [if_pos ht]
    · rw [if_neg ht]

/-- Witness for C5 (amended) at the probe-failure environment. -/
theorem C5_amended_failure_surfaced_but_cached_witness :
    (connect envProbeFail {}).2.connectionPromise
        = some (.error { message := "probe failed" }) ∧
    connect envProbeFail (connect envProbeFail {}).2
        = (.error { message := "probe failed" }, (connect envProbeFail {}).2) ∧
    ((connect envProbeFail {}).2.pool.isSome →
      (disconnect (connect envProbeFail {}).2).connectionPromise = none) :=
  C5_amended_failure_surfaced_but_cached envProbeFail {}
    { message := "probe failed" } rfl rfl

/-- Claim C6: a second `connect()` joining after one was started observes
the same single attempt: identical outcome, identical resulting state
(in particular no second probe and no second pool); the one attempt runs
the readiness probe exactly once (given it reaches pool creation, i.e.
no SSH tunnel is configured or the tunnel establishes); and a `connect()`
issued while already connected is a no-op returning the existing pool
instance. -/
theorem C6_single_flight_connect (env : ConnectEnv) (s0 : ConnState)
    (h0 : s0.connectionPromise = none)
    (ht : env.sshEnabled = false ∨ ∃ t, env.tunnel = .ok t) :
    (connect env (connect env s0).2).1 = (connect env s0).1 ∧
    (connect env (connect env s0).2).2 = (connect env s0).2 ∧
    (connect env s0).2.probeCount = s0.probeCount + 1 ∧
    (∀ (s : ConnState) (p : Nat), s.connectionPromise = some (.ok p) →
      connect env s = (.ok p, s)) := by
  refine ⟨?_, ?_, ?_, ?_⟩
  · simp [connect, h0]
  · simp [connect, h0]
  · simp only [connect, h0]
    rcases ht with hssh | ⟨t, htun⟩
    · simp [connectAttempt, hssh]
      cases env.probe <;> rfl
    · simp only [connectAttempt, htun]
      cases hssh : env.sshEnabled <;> simp [htun] <;> cases env.probe <;> rfl
  · intro s p hs
    simp [connect, hs]

/-- Witness for C6 at a concrete successful environment. -/
theorem C6_single_flight_connect_witness :
    (connect { sshEnabled := false, tunnel := .ok 0, probe := .ok () }
        (connect { sshEnabled := false, tunnel := .ok 0, probe := .ok () } {}).2).1
      = (connect { sshEnabled := false, tunnel := .ok 0, probe := .ok () } {}).1 ∧
    (connect { sshEnabled := false, tunnel := .ok 0, probe := .ok () } {}).2.probeCount
      = 1 :=
  ⟨(C6_single_flight_connect _ {} rfl (Or.inl rfl)).1,
   (C6_single_flight_connect _ {} rfl (Or.inl rfl)).2.2.1⟩

/-- Claim C9: in test mode, `beginTransaction(); query(A); query(B);
commit()` leaves a retrievable last-transaction log equal to
`"START TRANSACTION;\nA;\nB;\nCOMMIT;"` with `A` and `B` the bound query
strings: the buffer is seeded by `beginTransaction`, each query appends
in execution order, and `commit` appends its terminal statement and
closes the buffer. -/
theorem C9_transaction_log (tpl : String → List (String × JSVal) → String)
    (endentF : String → String)
    (escape : JSVal → String) (escapeId : String → String)
    (st0 : TestState) (sqlA sqlB : String) (va vb : BindValues)
    (qa qb : String)
    (ha : queryFormat tpl endentF escape escapeId sqlA va = some qa)
    (hbq : queryFormat tpl endentF escape escapeId sqlB vb = some qb) :
    ∃ ra rb stA stB,
      testPoolQuery tpl endentF escape escapeId
          (testPoolBeginTransaction st0) sqlA va = some (ra, stA) ∧
      testPoolQuery tpl endentF escape escapeId stA sqlB vb = some (rb, stB) ∧
      getLastTransaction (testPoolCommit stB)
        = some ("START TRANSACTION;\n" ++ qa ++ ";\n" ++ qb ++ ";\nCOMMIT;") ∧
      (testPoolCommit stB).transationStarted = false := by
  have m1 : ("START TRANSACTION;" : String) ++ "\n" = "START TRANSACTION;\n" := rfl
  have m2 : ((";" : String) ++ "\n") = ";\n" := rfl
  have r1 : ∀ t : String, "START TRANSACTION;" ++ ("\n" ++ t)
      = "START TRANSACTION;\n" ++ t := by
    intro t; rw [← String.append_assoc, m1]
  have r2 : ∀ t : String, (";" : String) ++ ("\n" ++ t) = ";\n" ++ t := by
    intro t; rw [← String.append_assoc, m2]
  have r3 : ((";" : String) ++ "\nCOMMIT;") = ";\nCOMMIT;" := rfl
  simp only [testPoolQuery, testPoolBeginTransaction, ha, hbq]
  refine ⟨_, _, _, _, rfl, rfl, ?_, rfl⟩
  simp [testPoolCommit, getLastTransaction, jsStr, String.append_assoc, r1, r2, r3]

/-- Witness for C9 with raw SQL strings (no bind values, so the bound
query strings are the inputs themselves). -/
theorem C9_transaction_log_witness :
    ∃ ra rb stA stB,
      testPoolQuery (fun s _ => s) id mysqlEscape mysqlEscapeId
          (testPoolBeginTransaction {}) "A" .absent = some (ra, stA) ∧
      testPoolQuery (fun s _ => s) id mysqlEscape mysqlEscapeId
          stA "B" .absent = some (rb, stB) ∧
      getLastTransaction (testPoolCommit stB)
        = some ("START TRANSACTION;\n" ++ "A" ++ ";\n" ++ "B" ++ ";\nCOMMIT;") ∧
      (testPoolCommit stB).transationStarted = false :=
  C9_transaction_log (fun s _ => s) id mysqlEscape mysqlEscapeId {}
    "A" "B" .absent .absent "A" "B" rfl rfl

/-- Claim C1 (amended): within one bind pass, substitution is
escape-exactly-once and insertions are never re-scanned — the value
pass's output is the concatenation of pieces that (i) reassemble exactly
the pass's input (each piece consuming either a verbatim literal chunk or
one `:key` marker), and (ii) render each substituted marker as exactly
one application of the driver's `escape` to the present parameter value.
(The claim's universal exactly-once property fails only because the outer
pass re-scans text produced earlier — the inline helpers' output and the
identifier pass's output — as the counterexample shows.) -/
theorem C1_amended_single_escape_per_substitution
    (escape : JSVal → String) (values : List (String × JSVal)) :
    ∀ (fuel : Nat) (w : Bool) (cs : List Char),
      vScan escape values fuel w cs
          = ((vPieces values fuel w cs).map (vrender escape)).flatten ∧
      ((vPieces values fuel w cs).map vsource).flatten = cs ∧
      (∀ p ∈ vPieces values fuel w cs, ∀ k v, p = VPiece.sub k v →
        lookupA values (String.mk k) = some v ∧ k ≠ []) := by
  intro fuel
  induction fuel with
  | zero =>
    intro w cs
    refine ⟨by simp [vScan, vPieces, vrender], by simp [vPieces, vsource], ?_⟩
    intro p hp k v hpk
    simp only [vPieces, List.mem_singleton] at hp
    subst hp
    cases hpk
  | succ n ih =>
    intro w cs
    cases cs with
    | nil => exact ⟨by simp [vScan, vPieces], by simp [vPieces], by simp [vPieces]⟩
    | cons c rest =>
      by_cases hc : c = ':' ∧ w = false
      · by_cases hk : (rest.takeWhile isWordChar).isEmpty
        · have h1 := (ih false rest).1
          have h2 := (ih false rest).2.1
          have h3 := (ih false rest).2.2
          refine ⟨?_, ?_, ?_⟩
          · simp only [vScan, vPieces, if_pos hc, if_pos hk, List.map_cons,
              List.flatten_cons, vrender, h1, List.singleton_append]
          · simp only [vPieces, if_pos hc, if_pos hk, List.map_cons,
              List.flatten_cons, vsource, h2, List.singleton_append]
          · intro p hp k v hpk
            simp only [vPieces, if_pos hc, if_pos hk, List.mem_cons] at hp
            rcases hp with hp | hp
            · subst hp; cases hpk
            · exact h3 p hp k v hpk
        · cases hL : lookupA values (String.mk (rest.takeWhile isWordChar)) with
          | some v0 =>
            have h1 := (ih true (rest.dropWhile isWordChar)).1
            have h2 := (ih true (rest.dropWhile isWordChar)).2.1
            have h3 := (ih true (rest.dropWhile isWordChar)).2.2
            refine ⟨?_, ?_, ?_⟩
            · simp only [vScan, vPieces, if_pos hc, if_neg hk, hL,
                List.map_cons, List.flatten_cons, vrender, h1]
            · simp only [vPieces, if_pos hc, if_neg hk, hL, List.map_cons,
                List.flatten_cons, vsource, h2]
              rw [hc.1, List.cons_append, List.takeWhile_append_dropWhile]
            · intro p hp k v hpk
              simp only [vPieces, if_pos hc, if_neg hk, hL, List.mem_cons] at hp
              rcases hp with hp | hp
              · subst hp
                cases hpk
                exact ⟨hL, by simpa [List.isEmpty_iff] using hk⟩
              · exact h3 p hp k v hpk
          | none =>
            have h1 := (ih true (rest.dropWhile isWordChar)).1
            have h2 := (ih true (rest.dropWhile isWordChar)).2.1
            have h3 := (ih true (rest.dropWhile isWordChar)).2.2
            refine ⟨?_, ?_, ?_⟩
            · simp only [vScan, vPieces, if_pos hc, if_neg hk, hL,
                List.map_cons, List.flatten_cons, vrender, h1,
                List.cons_append, List.append_assoc]
            · simp only [vPieces, if_pos hc, if_neg hk, hL, List.map_cons,
                List.flatten_cons, vsource, h2, List.cons_append]
              rw [List.takeWhile_append_dropWhile]
            · intro p hp k v hpk
              simp only [vPieces, if_pos hc, if_neg hk, hL, List.mem_cons] at hp
              rcases hp with hp | hp
              · subst hp; cases hpk
              · exact h3 p hp k v hpk
      · have h1 := (ih (isWordChar c) rest).1
        have h2 := (ih (isWordChar c) rest).2.1
        have h3 := (ih (isWordChar c) rest).2.2
        refine ⟨?_, ?_, ?_⟩
        · simp only [vScan, vPieces, if_neg hc, List.map_cons,
            List.flatten_cons, vrender, h1, List.singleton_append]
        · simp only [vPieces, if_neg hc, List.map_cons, List.flatten_cons,
            vsource, h2, List.singleton_append]
        · intro p hp k v hpk
          simp only [vPieces, if_neg hc, List.mem_cons] at hp
          rcases hp with hp | hp
          · subst hp; cases hpk
          · exact h3 p hp k v hpk

/-- Witness for C1 (amended) at marker `:a` with `{a: 7}`. -/
theorem C1_amended_single_escape_per_substitution_witness :
    vScan mysqlEscape [("a", .vNum 7)] 3 false [':', 'a']
        = ((vPieces [("a", .vNum 7)] 3 false [':', 'a']).map
            (vrender mysqlEscape)).flatten ∧
    lookupA [("a", .vNum 7)] (String.mk ['a']) = some (.vNum 7) :=
  ⟨(C1_amended_single_escape_per_substitution mysqlEscape
      [("a", .vNum 7)] 3 false [':', 'a']).1,
   ((C1_amended_single_escape_per_substitution mysqlEscape
      [("a", .vNum 7)] 3 false [':', 'a']).2.2
      (VPiece.sub ['a'] (.vNum 7)) (by decide) ['a'] (.vNum 7) rfl).1⟩

theorem iScan_nil (escapeId : String → String) (values : List (String × JSVal))
    (fuel : Nat) (w : Bool) : iScan escapeId values fuel w [] = some [] := by
  cases fuel <;> rfl

theorem vScan_nil (escape : JSVal → String) (values : List (String × JSVal))
    (fuel : Nat) (w : Bool) : vScan escape values fuel w [] = [] := by
  cases fuel <;> rfl

theorem iScan_no_colon (escapeId : String → String)
    (values : List (String × JSVal)) :
    ∀ (cs : List Char), (∀ c ∈ cs, c ≠ ':') → ∀ fuel w,
      iScan escapeId values fuel w cs = some cs := by
  intro cs
  induction cs with
  | nil => intro _ fuel w; exact iScan_nil _ _ _ _
  | cons c rest ih =>
    intro h fuel w
    cases fuel with
    | zero => rfl
    | succ n =>
      have hc : c ≠ ':' := h c (List.mem_cons_self c rest)
      simp only [iScan]
      rw [if_neg (by simp [hc])]
      rw [ih (fun x hx => h x (List.mem_cons_of_mem c hx)) n (isWordChar c)]
      rfl

theorem lowerA_ne_colon (c : Char) (h : isAlnumA c = true) : lowerA c ≠ ':' := by
  unfold lowerA
  split
  · rename_i hr
    intro heq
    obtain ⟨hb1, hb2⟩ := hr
    obtain ⟨n, hcn, hn1, hn2⟩ : ∃ n, c.toNat = n ∧ 65 ≤ n ∧ n ≤ 90 :=
      ⟨c.toNat, rfl, hb1, hb2⟩
    rw [hcn] at heq
    interval_cases n <;> exact absurd heq (by decide)
  · intro heq
    rw [heq] at h
    exact absurd h (by decide)

theorem wordsAux_alnum :
    ∀ (cs cur : List Char), (∀ a ∈ cur, isAlnumA a = true) →
      ∀ w ∈ wordsAux cur cs, ∀ a ∈ w, isAlnumA a = true := by
  intro cs
  induction cs with
  | nil =>
    intro cur hcur w hw a ha
    cases cur with
    | nil => simp [wordsAux] at hw
    | cons p tail =>
      simp only [wordsAux, List.mem_singleton] at hw
      subst hw
      exact hcur a (List.mem_reverse.mp ha)
  | cons c rest ih =>
    intro cur hcur w hw a ha
    cases cur with
    | nil =>
      simp only [wordsAux] at hw
      by_cases hac : isAlnumA c
      · rw [if_pos hac] at hw
        exact ih [c] (by intro x hx; simp at hx; subst hx; exact hac) w hw a ha
      · rw [if_neg hac] at hw
        exact ih [] (by intro x hx; simp at hx) w hw a ha
    | cons p tail =>
      simp only [wordsAux] at hw
      by_cases hac : isAlnumA c
      · rw [if_pos hac] at hw
        by_cases hb : camelBoundary p c rest = true
        · rw [if_pos hb] at hw
          rcases List.mem_cons.mp hw with hw | hw
          · subst hw
            exact hcur a (List.mem_reverse.mp ha)
          · exact ih [c] (by intro x hx; simp at hx; subst hx; exact hac) w hw a ha
        · rw [if_neg hb] at hw
          refine ih (c :: p :: tail) ?_ w hw a ha
          intro x hx
          rcases List.mem_cons.mp hx with hx | hx
          · subst hx; exact hac
          · exact hcur x hx
      · rw [if_neg hac] at hw
        rcases List.mem_cons.mp hw with hw | hw
        · subst hw
          exact hcur a (List.mem_reverse.mp ha)
        · exact ih [] (by intro x hx; simp at hx) w hw a ha

theorem mem_joinSep {sep : Char} :
    ∀ (ws : List (List Char)) (c : Char),
      c ∈ joinSep sep ws → c = sep ∨ ∃ w ∈ ws, c ∈ w := by
  intro ws
  induction ws with
  | nil => intro c hc; simp [joinSep] at hc
  | cons w rest ih =>
    intro c hc
    cases rest with
    | nil =>
      simp only [joinSep] at hc
      exact Or.inr ⟨w, List.mem_cons_self _ _, hc⟩
    | cons w2 rest2 =>
      simp only [joinSep, List.mem_append, List.mem_cons] at hc
      rcases hc with hc | hc | hc
      · exact Or.inr ⟨w, List.mem_cons_self _ _, hc⟩
      · exact Or.inl hc
      · rcases ih c hc with h | ⟨w', hw', hcw'⟩
        · exact Or.inl h
        · exact Or.inr ⟨w', List.mem_cons_of_mem w hw', hcw'⟩

theorem snakeCase_no_colon (s : String) :
    ∀ c ∈ (snakeCase s).data, c ≠ ':' := by
  intro c hc
  have hc' : c ∈ joinSep '_' ((caseWords s).map (fun w => w.map lowerA)) := hc
  rcases mem_joinSep _ c hc' with h | ⟨w', hw', hcw'⟩
  · subst h; decide
  · rcases List.mem_map.mp hw' with ⟨w, hw, rfl⟩
    rcases List.mem_map.mp hcw' with ⟨a, haw, rfl⟩
    exact lowerA_ne_colon a
      (wordsAux_alnum s.data [] (by intro x hx; simp at hx) w hw a haw)

theorem mysqlEscapeId_no_colon (s : String) (h : ∀ c ∈ s.data, c ≠ ':') :
    ∀ c ∈ (mysqlEscapeId s).data, c ≠ ':' := by
  intro c hc
  have hc' : c ∈ ('`' :: (s.data.flatMap
      (fun c => if c = '`' then ['`', '`']
                else if c = '.' then ['`', '.', '`'] else [c]) ++ ['`'])) := hc
  rcases List.mem_cons.mp hc' with h1 | h1
  · subst h1; decide
  · rcases List.mem_append.mp h1 with h2 | h2
    · rcases List.mem_flatMap.mp h2 with ⟨a, ha, hfa⟩
      by_cases hb : a = '`'
      · rw [if_pos hb] at hfa
        exact (by decide : ∀ x ∈ (['`', '`'] : List Char), x ≠ ':') c hfa
      · by_cases hd : a = '.'
        · rw [if_neg hb, if_pos hd] at hfa
          exact (by decide : ∀ x ∈ (['`', '.', '`'] : List Char), x ≠ ':') c hfa
        · rw [if_neg hb, if_neg hd] at hfa
          have hca : c = a := by simpa using hfa
          rw [hca]; exact h a ha
    · simp at h2
      subst h2; decide

/-- Character content of the identifier-marker substitution image for a
string value. -/
def idImageData (v : String) : List Char :=
  joinSep '.' ((splitOnDot v.data).map
    (fun seg => (mysqlEscapeId (snakeCase (String.mk seg))).data))

theorem idSubstImage_vStr (v : String) :
    idSubstImage mysqlEscapeId (.vStr v) = some (String.mk (idImageData v)) := rfl

theorem idImageData_no_colon (v : String) : ∀ c ∈ idImageData v, c ≠ ':' := by
  intro c hc
  rcases mem_joinSep _ c hc with h | ⟨w', hw', hcw'⟩
  · subst h; decide
  · rcases List.mem_map.mp hw' with ⟨seg, _, rfl⟩
    exact mysqlEscapeId_no_colon _ (snakeCase_no_colon _) c hcw'

theorem splitOnDot_ne_nil : ∀ l : List Char, splitOnDot l ≠ [] := by
  intro l
  cases l with
  | nil => simp [splitOnDot]
  | cons c rest =>
    simp only [splitOnDot]
    by_cases hc : c = '.'
    · simp [hc]
    · simp only [hc, if_false]
      cases hs : splitOnDot rest <;> simp

theorem idImageData_head (v : String) : ∃ t, idImageData v = '`' :: t := by
  unfold idImageData
  cases hs : splitOnDot v.data with
  | nil => exact absurd hs (splitOnDot_ne_nil v.data)
  | cons seg segs =>
    cases segs with
    | nil => exact ⟨_, rfl⟩
    | cons s2 ss => exact ⟨_, rfl⟩

theorem mk_data (s : String) : String.mk s.data = s := rfl

theorem iScan_double_colon (values : List (String × JSVal)) (k v : String)
    (hk : k.data ≠ []) (hw : k.data.all isWordChar)
    (hv : lookupA values k = some (.vStr v)) (fuel : Nat) :
    iScan mysqlEscapeId values (fuel + 1) false (':' :: ':' :: k.data)
      = some (idImageData v) := by
  simp only [iScan]
  rw [if_pos (⟨trivial, rfl⟩ : True ∧ (':' :: k.data).head? = some ':')]
  rw [if_neg (by decide : ¬ ((false : Bool) = true))]
  simp only [List.tail_cons]
  rw [takeWhile_eq_self_of_all hw]
  rw [if_neg (by simpa [List.isEmpty_iff] using hk)]
  rw [mk_data, hv]
  simp only [idSubstImage_vStr]
  rw [dropWhile_eq_nil_of_all hw, iScan_nil]
  simp [mk_data]

/-- Claim C3 (amended): for an identifier marker `::k` whose key is
present with string value `v`, the binder's output is the value split on
dots, each segment translated to wire casing (`snakeCase`, the spec's
`toWireCasing`) and then escaped with the driver's `escapeId`, joined
with dots; this equals `escapeId(a) ++ "." ++ escapeId(b)` only when the
segments are already in wire casing. -/
theorem C3_amended_dotted_identifier (k v : String)
    (values : List (String × JSVal))
    (hk : k ≠ "") (hw : k.data.all isWordChar)
    (hv : lookupA values k = some (.vStr v)) :
    bindQueryParams mysqlEscape mysqlEscapeId ("::" ++ k) values
      = some (String.mk (idImageData v)) := by
  have hdat : k.data ≠ [] := by
    intro hnil
    exact hk (by cases k with | mk d => cases hnil; rfl)
  unfold bindQueryParams
  have hdata : ("::" ++ k).data = ':' :: ':' :: k.data := by
    rw [String.data_append]; rfl
  rw [hdata, iScan_double_colon values k v hdat hw hv]
  show some (String.mk (vScan mysqlEscape values ((idImageData v).length + 1)
    false (idImageData v))) = _
  rw [vScan_no_colon mysqlEscape values (idImageData v) (idImageData_no_colon v)]

/-- Witness for C3 (amended) at `::sortBy` with value `"updatedAt.x"`. -/
theorem C3_amended_dotted_identifier_witness :
    bindQueryParams mysqlEscape mysqlEscapeId ("::" ++ "sortBy")
        [("sortBy", .vStr "updatedAt.x")]
      = some (String.mk (idImageData "updatedAt.x")) :=
  C3_amended_dotted_identifier "sortBy" "updatedAt.x"
    [("sortBy", .vStr "updatedAt.x")] (by decide) (by decide) rfl

theorem iScan_step_char (escapeId : String → String)
    (values : List (String × JSVal)) (fuel : Nat) (w : Bool) (c : Char)
    (rest : List Char) (h : ¬ (c = ':' ∧ rest.head? = some ':')) :
    iScan escapeId values (fuel + 1) w (c :: rest)
      = Option.map (fun t => c :: t) (iScan escapeId values fuel (isWordChar c) rest) := by
  simp only [iScan]
  rw [if_neg h]

theorem iScan_step_prevW (escapeId : String → String)
    (values : List (String × JSVal)) (fuel : Nat)
    (rest : List Char) (h : rest.head? = some ':') :
    iScan escapeId values (fuel + 1) true (':' :: rest)
      = Option.map (fun t => ':' :: t) (iScan escapeId values fuel false rest) := by
  simp [iScan, h]

theorem iScan_step_emptyKey (escapeId : String → String)
    (values : List (String × JSVal)) (fuel : Nat)
    (rest : List Char) (h : rest.head? = some ':')
    (h2 : (rest.tail.takeWhile isWordChar).isEmpty = true) :
    iScan escapeId values (fuel + 1) false (':' :: rest)
      = Option.map (fun t => ':' :: t) (iScan escapeId values fuel false rest) := by
  simp [iScan, h, h2]

theorem vScan_step_char (escape : JSVal → String)
    (values : List (String × JSVal)) (fuel : Nat) (w : Bool) (c : Char)
    (rest : List Char) (h : ¬ (c = ':' ∧ w = false)) :
    vScan escape values (fuel + 1) w (c :: rest)
      = c :: vScan escape values fuel (isWordChar c) rest := by
  simp only [vScan]
  rw [if_neg h]

theorem vScan_step_emptyKey (escape : JSVal → String)
    (values : List (String × JSVal)) (fuel : Nat)
    (rest : List Char) (h2 : (rest.takeWhile isWordChar).isEmpty = true) :
    vScan escape values (fuel + 1) false (':' :: rest)
      = ':' :: vScan escape values fuel false rest := by
  simp [vScan, h2]

theorem vScan_step_subst (escape : JSVal → String)
    (values : List (String × JSVal)) (fuel : Nat) (k : String) (v : JSVal)
    (hk : k.data ≠ []) (hw : k.data.all isWordChar)
    (hv : lookupA values k = some v) :
    vScan escape values (fuel + 1) false (':' :: k.data)
      = (escape v).data ++ vScan escape values fuel true [] := by
  have hke : k.data.isEmpty = false := by
    cases hkc : k.data with
    | nil => exact absurd hkc hk
    | cons d t => rfl
  simp [vScan, takeWhile_eq_self_of_all hw, dropWhile_eq_nil_of_all hw,
    hke, mk_data, hv]

theorem vScan_cons_image (values : List (String × JSVal)) (fuel : Nat)
    (c : Char) (v : String) :
    vScan mysqlEscape values (fuel + 1) false (c :: idImageData v)
      = c :: idImageData v := by
  by_cases hc : c = ':'
  · subst hc
    obtain ⟨t, ht⟩ := idImageData_head v
    rw [vScan_step_emptyKey mysqlEscape values fuel (idImageData v)
      (by rw [ht, List.takeWhile_cons_of_neg (by decide : ¬ isWordChar '`' = true)]; rfl)]
    rw [vScan_no_colon mysqlEscape values (idImageData v) (idImageData_no_colon v)]
  · rw [vScan_step_char mysqlEscape values fuel false c (idImageData v) (by simp [hc])]
    rw [vScan_no_colon mysqlEscape values (idImageData v) (idImageData_no_colon v)]

theorem iScan_cons_double (values : List (String × JSVal)) (fuel : Nat)
    (c : Char) (k v : String)
    (hk : k.data ≠ []) (hw : k.data.all isWordChar)
    (hv : lookupA values k = some (.vStr v))
    (hcw : isWordChar c = false) :
    iScan mysqlEscapeId values ((fuel + 1) + 1) false (c :: ':' :: ':' :: k.data)
      = some (c :: idImageData v) := by
  by_cases hc : c = ':'
  · subst hc
    rw [iScan_step_emptyKey mysqlEscapeId values (fuel + 1) (':' :: ':' :: k.data)
      rfl
      (by rw [List.tail_cons, List.takeWhile_cons_of_neg
            (by decide : ¬ isWordChar ':' = true)]; rfl)]
    rw [iScan_double_colon values k v hk hw hv fuel]
    rfl
  · rw [iScan_step_char mysqlEscapeId values (fuel + 1) false c (':' :: ':' :: k.data)
      (by simp [hc])]
    rw [hcw, iScan_double_colon values k v hk hw hv fuel]
    rfl

theorem iScan_word_lead (values : List (String × JSVal)) (fuel : Nat)
    (c : Char) (k : String)
    (hw : k.data.all isWordChar)
    (hcw : isWordChar c = true) :
    iScan mysqlEscapeId values (((fuel + 1) + 1) + 1) false (c :: ':' :: ':' :: k.data)
      = Option.map (fun t => c :: ':' :: ':' :: t)
          (iScan mysqlEscapeId values fuel false k.data) := by
  have hc : c ≠ ':' := by
    intro hceq; rw [hceq] at hcw; exact absurd hcw (by decide)
  have hkd : ¬ ((':' : Char) = ':' ∧ k.data.head? = some ':') := by
    rintro ⟨-, hd⟩
    cases hkc : k.data with
    | nil => rw [hkc] at hd; simp at hd
    | cons d t =>
      rw [hkc] at hd hw
      simp only [List.head?_cons, Option.some.injEq] at hd
      simp only [List.all_cons, Bool.and_eq_true] at hw
      rw [hd] at hw
      exact absurd hw.1 (by decide)
  rw [iScan_step_char mysqlEscapeId values ((fuel + 1) + 1) false c
    (':' :: ':' :: k.data) (by simp [hc])]
  rw [hcw]
  rw [iScan_step_prevW mysqlEscapeId values (fuel + 1) (':' :: k.data) rfl]
  rw [iScan_step_char mysqlEscapeId values fuel false ':' k.data hkd]
  rw [(by decide : isWordChar ':' = false)]
  simp only [Option.map_map]
  rfl

theorem vScan_word_lead (values : List (String × JSVal)) (fuel : Nat)
    (c : Char) (k : String) (v : JSVal)
    (hk : k.data ≠ []) (hw : k.data.all isWordChar)
    (hv : lookupA values k = some v)
    (hcw : isWordChar c = true) :
    vScan mysqlEscape values (((fuel + 1) + 1) + 1) false (c :: ':' :: ':' :: k.data)
      = c :: ':' :: (mysqlEscape v).data := by
  have hc : c ≠ ':' := by
    intro hceq; rw [hceq] at hcw; exact absurd hcw (by decide)
  rw [vScan_step_char mysqlEscape values ((fuel + 1) + 1) false c
    (':' :: ':' :: k.data) (by simp [hc])]
  rw [hcw]
  rw [vScan_step_char mysqlEscape values (fuel + 1) true ':' (':' :: k.data)
    (by simp)]
  rw [(by decide : isWordChar ':' = false)]
  rw [vScan_step_subst mysqlEscape values fuel k v hk hw hv]
  rw [vScan_nil]
  simp

theorem iScan_empty_values (escapeId : String → String) :
    ∀ (fuel : Nat) (w : Bool) (cs : List Char),
      iScan escapeId [] fuel w cs = some cs := by
  intro fuel
  induction fuel with
  | zero => intro w cs; rfl
  | succ n ih =>
    intro w cs
    cases cs with
    | nil => rfl
    | cons c rest =>
      by_cases hc : c = ':' ∧ rest.head? = some ':'
      · simp only [iScan, if_pos hc]
        by_cases hpw : w = true
        · rw [if_pos hpw, ih, Option.map_some', hc.1]
        · rw [if_neg hpw]
          by_cases hke : ((rest.tail.takeWhile isWordChar).isEmpty : Bool) = true
          · rw [if_pos hke, ih, Option.map_some', hc.1]
          · rw [if_neg hke]
            show Option.map _ (iScan escapeId [] n true (rest.tail.dropWhile isWordChar)) = _
            rw [ih, Option.map_some', hc.1]
            have hr : rest.tail.takeWhile isWordChar ++ rest.tail.dropWhile isWordChar
                = rest.tail := List.takeWhile_append_dropWhile isWordChar rest.tail
            rw [hr]
            obtain ⟨r2, hrest⟩ : ∃ r2, rest = ':' :: r2 := by
              cases rest with
              | nil => simp at hc
              | cons a b =>
                rcases hc with ⟨-, hh⟩
                simp only [List.head?_cons, Option.some.injEq] at hh
                exact ⟨b, by rw [hh]⟩
            rw [hrest]
            rfl
      · simp only [iScan, if_neg hc, ih, Option.map_some']
  
theorem vScan_empty_values (escape : JSVal → String) :
    ∀ (fuel : Nat) (w : Bool) (cs : List Char),
      vScan escape [] fuel w cs = cs := by
  intro fuel
  induction fuel with
  | zero => intro w cs; rfl
  | succ n ih =>
    intro w cs
    cases cs with
    | nil => rfl
    | cons c rest =>
      by_cases hc : c = ':' ∧ w = false
      · simp only [vScan, if_pos hc]
        by_cases hke : ((rest.takeWhile isWordChar).isEmpty : Bool) = true
        · rw [if_pos hke, ih]
        · rw [if_neg hke]
          show c :: (rest.takeWhile isWordChar
              ++ vScan escape [] n true (rest.dropWhile isWordChar)) = _
          rw [ih, List.takeWhile_append_dropWhile]
      · simp only [vScan, if_neg hc, ih]

/-- Claim C2 (amended): a value marker `:k` is substituted exactly when
the regex position before its colon is not a word boundary, i.e. when the
preceding character is a non-word character (a preceding colon included)
or the string start.  A `::k` token preceded by a non-word character (or
at the start) is consumed by the identifier pass and never
value-substituted, and with no bindable keys every marker is left
unchanged with no error; but when `::k` is preceded by a word character
the identifier pass skips it and the value pass substitutes at the second
colon, leaving a stray leading colon — so `::k` is not universally
protected, contrary to the claim. -/
theorem C2_amended_value_marker_scope (c : Char) (k v : String)
    (values : List (String × JSVal))
    (hk : k ≠ "") (hw : k.data.all isWordChar)
    (hv : lookupA values k = some (.vStr v)) :
    (isWordChar c = false →
      bindQueryParams mysqlEscape mysqlEscapeId
          (String.mk (c :: ':' :: ':' :: k.data)) values
        = some (String.mk (c :: idImageData v))) ∧
    (isWordChar c = true →
      bindQueryParams mysqlEscape mysqlEscapeId
          (String.mk (c :: ':' :: ':' :: k.data)) values
        = some (String.mk (c :: ':' :: (mysqlEscape (.vStr v)).data))) ∧
    (∀ sql : String,
      bindQueryParams mysqlEscape mysqlEscapeId sql [] = some sql) := by
  have hdat : k.data ≠ [] := by
    intro hnil
    exact hk (by cases k with | mk d => cases hnil; rfl)
  refine ⟨?_, ?_, ?_⟩
  · intro hcw
    unfold bindQueryParams
    show (Option.map _ (iScan mysqlEscapeId values
      ((c :: ':' :: ':' :: k.data).length + 1) false (c :: ':' :: ':' :: k.data))) = _
    simp only [List.length_cons]
    rw [iScan_cons_double values (k.data.length + 1 + 1) c k v hdat hw hv hcw]
    show some (String.mk (vScan mysqlEscape values
      ((c :: idImageData v).length + 1) false (c :: idImageData v))) = _
    simp only [List.length_cons]
    rw [vScan_cons_image values ((idImageData v).length + 1) c v]
  · intro hcw
    unfold bindQueryParams
    show (Option.map _ (iScan mysqlEscapeId values
      ((c :: ':' :: ':' :: k.data).length + 1) false (c :: ':' :: ':' :: k.data))) = _
    simp only [List.length_cons]
    rw [iScan_word_lead values (k.data.length + 1) c k hw hcw]
    rw [iScan_no_colon mysqlEscapeId values k.data
      (fun x hx => by
        intro hxe
        have hax := List.all_eq_true.mp hw x hx
        rw [hxe] at hax
        exact absurd hax (by decide)) (k.data.length + 1) false]
    show some (String.mk (vScan mysqlEscape values
      ((c :: ':' :: ':' :: k.data).length + 1) false (c :: ':' :: ':' :: k.data))) = _
    simp only [List.length_cons]
    rw [vScan_word_lead values (k.data.length + 1) c k (.vStr v) hdat hw hv hcw]
  · intro sql
    unfold bindQueryParams
    rw [iScan_empty_values]
    show some (String.mk (vScan mysqlEscape [] (sql.data.length + 1) false sql.data)) = _
    rw [vScan_empty_values, mk_data]

/-- Witness for C2 (amended) at `x::k` (word-char prefix) with `{k: "v"}`. -/
theorem C2_amended_value_marker_scope_witness :
    bindQueryParams mysqlEscape mysqlEscapeId
        (String.mk ('x' :: ':' :: ':' :: ("k" : String).data))
        [("k", .vStr "v")]
      = some (String.mk ('x' :: ':' :: (mysqlEscape (.vStr "v")).data)) :=
  (C2_amended_value_marker_scope 'x' "k" "v" [("k", .vStr "v")]
    (by decide) (by decide) rfl).2.1 (by decide)

theorem lookupA_none_not_key (st : List (String × JSVal)) (k : String)
    (h : lookupA st k = none) : ∀ p ∈ st, p.1 ≠ k := by
  induction st with
  | nil => intro p hp; simp at hp
  | cons q rest ih =>
    intro p hp
    obtain ⟨k', v'⟩ := q
    simp only [lookupA] at h
    by_cases hk : k' = k
    · rw [if_pos hk] at h; cases h
    · rw [if_neg hk] at h
      rcases List.mem_cons.mp hp with hp | hp
      · subst hp; exact hk
      · exact ih h p hp

theorem keys_eraseKey (st : List (String × JSVal)) (k : String) (kf : String)
    (h : kf ∈ (eraseKey st k).map Prod.fst) :
    kf ∈ st.map Prod.fst ∧ kf ≠ k := by
  induction st with
  | nil => simp [eraseKey] at h
  | cons q rest ih =>
    obtain ⟨k', v'⟩ := q
    simp only [eraseKey] at h
    by_cases hk : k' = k
    · rw [if_pos hk] at h
      obtain ⟨h1, h2⟩ := ih h
      exact ⟨List.mem_cons_of_mem _ h1, h2⟩
    · rw [if_neg hk] at h
      simp only [List.map_cons, List.mem_cons] at h
      rcases h with h | h
      · subst h; exact ⟨List.mem_cons_self _ _, hk⟩
      · obtain ⟨h1, h2⟩ := ih h
        exact ⟨List.mem_cons_of_mem _ h1, h2⟩

theorem keys_setKey (st : List (String × JSVal)) (a : String) (v : JSVal)
    (kf : String) (h : kf ∈ (setKey st a v).map Prod.fst) :
    kf ∈ st.map Prod.fst ∨ kf = a := by
  induction st with
  | nil =>
    simp only [setKey, List.map_cons, List.map_nil, List.mem_singleton] at h
    exact Or.inr h
  | cons q rest ih =>
    obtain ⟨k', v'⟩ := q
    simp only [setKey] at h
    by_cases hk : k' = a
    · rw [if_pos hk] at h
      simp only [List.map_cons, List.mem_cons] at h
      rcases h with h | h
      · exact Or.inl (by simp [h])
      · exact Or.inl (List.mem_cons_of_mem _ h)
    · rw [if_neg hk] at h
      simp only [List.map_cons, List.mem_cons] at h
      rcases h with h | h
      · exact Or.inl (by simp [h])
      · rcases ih h with h | h
        · exact Or.inl (List.mem_cons_of_mem _ h)
        · exact Or.inr h

theorem convRowGo_fixed (ks : List String) (st : List (String × JSVal))
    (h : ∀ k ∈ ks, k = camelCase k) : convRowGo ks st = st := by
  induction ks with
  | nil => rfl
  | cons k rest ih =>
    simp only [convRowGo]
    rw [if_pos (h k (List.mem_cons_self _ _))]
    exact ih (fun x hx => h x (List.mem_cons_of_mem _ hx))

theorem convRowGo_keys_camel (ks : List String) :
    ∀ (st : List (String × JSVal)),
      (∀ k ∈ ks, camelCase (camelCase k) = camelCase k) →
      (∀ kf ∈ st.map Prod.fst, kf ∈ ks ∨ camelCase kf = kf) →
      ∀ kf ∈ (convRowGo ks st).map Prod.fst, camelCase kf = kf := by
  induction ks with
  | nil =>
    intro st _ inv kf hkf
    rcases inv kf hkf with h | h
    · simp at h
    · exact h
  | cons k rest ih =>
    intro st H inv kf hkf
    simp only [convRowGo] at hkf
    by_cases hceq : k = camelCase k
    · rw [if_pos hceq] at hkf
      refine ih st (fun x hx => H x (List.mem_cons_of_mem _ hx)) ?_ kf hkf
      intro x hx
      rcases inv x hx with hx' | hx'
      · rcases List.mem_cons.mp hx' with hx' | hx'
        · subst hx'; exact Or.inr hceq.symm
        · exact Or.inl hx'
      · exact Or.inr hx'
    · rw [if_neg hceq] at hkf
      cases hL : lookupA st k with
      | none =>
        rw [hL] at hkf
        refine ih st (fun x hx => H x (List.mem_cons_of_mem _ hx)) ?_ kf hkf
        intro x hx
        rcases inv x hx with hx' | hx'
        · rcases List.mem_cons.mp hx' with hx' | hx'
          · exfalso
            subst hx'
            rcases List.mem_map.mp hx with ⟨p, hp, hpx⟩
            exact lookupA_none_not_key st x hL p hp hpx
          · exact Or.inl hx'
        · exact Or.inr hx'
      | some vv =>
        rw [hL] at hkf
        refine ih _ (fun x hx => H x (List.mem_cons_of_mem _ hx)) ?_ kf hkf
        intro x hx
        obtain ⟨hx1, hx2⟩ := keys_eraseKey _ k x hx
        rcases keys_setKey st (camelCase k) vv x hx1 with hx3 | hx3
        · rcases inv x hx3 with hx' | hx'
          · rcases List.mem_cons.mp hx' with hx' | hx'
            · exact absurd hx' hx2
            · exact Or.inl hx'
          · exact Or.inr hx'
        · subst hx3
          exact Or.inr (H k (List.mem_cons_self _ _))

theorem convRow_convRow (m : List (String × JSVal))
    (h : ∀ k ∈ m.map Prod.fst, camelCase (camelCase k) = camelCase k) :
    convRow (convRow m) = convRow m := by
  unfold convRow
  apply convRowGo_fixed
  intro kf hkf
  exact (convRowGo_keys_camel (m.map Prod.fst) m h
    (fun x hx => Or.inl hx) kf hkf).symm

mutual

theorem convertElem_idem (r : Rows) (h : keysIdem r = true) :
    convertElem (convertElem r) = convertElem r := by
  cases r with
  | header => rfl
  | obj m =>
    simp only [convertElem]
    rw [convRow_convRow m]
    intro k hk
    rcases List.mem_map.mp hk with ⟨p, hp, hpk⟩
    have := List.all_eq_true.mp h p hp
    rw [← hpk]
    exact of_decide_eq_true this
  | arr l =>
    simp only [convertElem]
    rw [convertList_idem l h]

theorem convertList_idem (l : List Rows) (h : keysIdemList l = true) :
    convertList (convertList l) = convertList l := by
  cases l with
  | nil => rfl
  | cons r rs =>
    simp only [keysIdemList, Bool.and_eq_true] at h
    simp only [convertList]
    rw [convertElem_idem r h.1, convertList_idem rs h.2]

end

/-- Claim C8 (amended): the Casing Converter is idempotent on every rows
value whose keys `k` (recursively, in nested arrays too) satisfy
`camelCase (camelCase k) = camelCase k` — in particular on ordinary
snake_case or camelCase column names; nested arrays are recursed into and
`ResultSetHeader` sentinels are untouched.  (Unrestricted idempotence
fails: change-case's `camelCase` is itself not idempotent, see the
counterexample.) -/
theorem C8_amended_idempotent_on_stable_keys (rows : Rows)
    (h : keysIdem rows = true) :
    convertColumnNameCasing (convertColumnNameCasing rows)
      = convertColumnNameCasing rows := by
  cases rows with
  | header => rfl
  | obj m => rfl
  | arr l =>
    simp only [convertColumnNameCasing]
    rw [convertList_idem l h]

/-- Witness for C8 (amended) at a typical snake_case result set. -/
theorem C8_amended_idempotent_on_stable_keys_witness :
    convertColumnNameCasing (convertColumnNameCasing
        (.arr [.obj [("updated_at", .vNull), ("author", .vNum 1)], .header]))
      = convertColumnNameCasing
          (.arr [.obj [("updated_at", .vNull), ("author", .vNum 1)], .header]) :=
  C8_amended_idempotent_on_stable_keys
    (.arr [.obj [("updated_at", .vNull), ("author", .vNum 1)], .header])
    (by decide)
